import Mathlib

/-!
Shallow embedding of `src/hf_addr2line.py`.

The script reads a firmware debug log, scans it with the regular expression
`HF_ADDR\s+PC=0x([0-9a-fA-F]{8})\s+LR=0x([0-9a-fA-F]{8})` (non-overlapping
matches, in scan order), appends the parsed PC then LR value of each match to
a working list, de-duplicates that list preserving first-seen order, and then
prints a report that resolves every unique address through the external
`arm-none-eabi-addr2line` tool.

Log text is modelled as `List Char`; the regular expression is deterministic
(each `\s+` is followed by a non-space literal and each `{8}` repetition is of
fixed width, so no backtracking can occur) and is embedded as the
straight-line matcher `matchAt`.  `re.finditer`'s scan - try every start
position from left to right, continue after the end of each match - is
embedded as `findIter`.  The effectful `main` is embedded as the pure
function `runMain` over an environment recording the command line, which
paths are regular files, the decoded log text, and the behaviour of the
external resolver process (exit-ok flag plus combined captured output).
-/

namespace HfAddr2Line

/-- Code points matched by the regex character class `[0-9a-fA-F]`. -/
def isHexDigit (c : Char) : Bool :=
  (48 ≤ c.toNat && c.toNat ≤ 57) || (97 ≤ c.toNat && c.toNat ≤ 102) ||
    (65 ≤ c.toNat && c.toNat ≤ 70)

/-- Code points matched by Python's `\s` in a Unicode (`str`) pattern:
`[ \t\n\r\v\f]`, the file/group/record/unit separators, NEL, NBSP, and the
Unicode space separators. -/
def isSpaceChar (c : Char) : Bool :=
  c.toNat = 32 || c.toNat = 9 || c.toNat = 10 || c.toNat = 13 ||
    c.toNat = 11 || c.toNat = 12 ||
    c.toNat = 28 || c.toNat = 29 || c.toNat = 30 || c.toNat = 31 ||
    c.toNat = 133 || c.toNat = 160 || c.toNat = 5760 ||
    (8192 ≤ c.toNat && c.toNat ≤ 8202) ||
    c.toNat = 8232 || c.toNat = 8233 || c.toNat = 8239 || c.toNat = 8287 ||
    c.toNat = 12288

/-- Value of a single hexadecimal digit, as used by Python's `int(_, 16)`
(the regex guarantees the argument is in `[0-9a-fA-F]`). -/
def hexVal (c : Char) : Nat :=
  if c.toNat ≤ 57 then c.toNat - 48
  else if 97 ≤ c.toNat then c.toNat - 87
  else c.toNat - 55

/-- `int(h, 16)` on a string of hexadecimal digits. -/
def hexParse (l : List Char) : Nat :=
  l.foldl (fun a c => a * 16 + hexVal c) 0

/-- The literal `HF_ADDR` of the pattern. -/
def hfLit : List Char := "HF_ADDR".toList

/-- The literal `PC=0x` of the pattern. -/
def pcLit : List Char := "PC=0x".toList

/-- The literal `LR=0x` of the pattern. -/
def lrLit : List Char := "LR=0x".toList

/-- Consume an exact literal prefix; `none` when the text does not start
with the literal. -/
def dropLit : List Char → List Char → Option (List Char)
  | [], s => some s
  | _ :: _, [] => none
  | l :: ls, c :: cs => if c = l then dropLit ls cs else none

/-- Consume a maximal (possibly empty) run of `\s` characters. -/
def dropSpaces : List Char → List Char
  | [] => []
  | c :: cs => if isSpaceChar c then dropSpaces cs else c :: cs

/-- `\s+`: at least one whitespace character, maximal munch.  (In the source
pattern each `\s+` is followed by a non-space literal, so maximal munch
agrees with the backtracking regex engine.) -/
def takeSpaces1 : List Char → Option (List Char)
  | [] => none
  | c :: cs => if isSpaceChar c then some (dropSpaces cs) else none

/-- `[0-9a-fA-F]{n}`: exactly `n` hexadecimal digits; returns the digits and
the remaining text. -/
def takeHexN : Nat → List Char → Option (List Char × List Char)
  | 0, s => some ([], s)
  | _ + 1, [] => none
  | n + 1, c :: cs =>
    if isHexDigit c then
      match takeHexN n cs with
      | some (h, r) => some (c :: h, r)
      | none => none
    else none

/-- Attempt to match `HF_ADDR\s+PC=0x([0-9a-fA-F]{8})\s+LR=0x([0-9a-fA-F]{8})`
at the very start of `s`.  On success, return the parsed PC value, the parsed
LR value and the text following the match. -/
def matchAt (s : List Char) : Option (Nat × Nat × List Char) :=
  (dropLit hfLit s).bind fun s1 =>
  (takeSpaces1 s1).bind fun s2 =>
  (dropLit pcLit s2).bind fun s3 =>
  (takeHexN 8 s3).bind fun p1 =>
  (takeSpaces1 p1.2).bind fun s5 =>
  (dropLit lrLit s5).bind fun s6 =>
  (takeHexN 8 s6).bind fun p2 =>
  some (hexParse p1.1, hexParse p2.1, p2.2)

/-- Fuelled scan loop behind `findIter`: try to match at the current
position; on success emit the pair and continue after the match, otherwise
advance one character.  The fuel only serves to make the recursion
structural; `findIterAux_fuel` below shows the result does not depend on it
once it is at least the length of the text. -/
def findIterAux : Nat → List Char → List (Nat × Nat)
  | 0, _ => []
  | _ + 1, [] => []
  | fuel + 1, c :: rest =>
    match matchAt (c :: rest) with
    | some (pc, lr, s') => (pc, lr) :: findIterAux fuel s'
    | none => findIterAux fuel rest

/-- `pattern.finditer(log_text)`: all non-overlapping matches, in scan
order, as (PC value, LR value) pairs. -/
def findIter (s : List Char) : List (Nat × Nat) :=
  findIterAux s.length s

/-- The loop `for m in pattern.finditer(..): addrs.append(int(pc_hex, 16));
addrs.append(int(lr_hex, 16))`: flatten the match list, PC before LR. -/
def pairList : List (Nat × Nat) → List Nat
  | [] => []
  | pl :: rest => pl.1 :: pl.2 :: pairList rest

/-- The working sequence `addrs` built by the extraction loop. -/
def addrs (s : List Char) : List Nat :=
  pairList (findIter s)

/-- The de-duplication loop of the source: a `seen` set (modelled as the
list of values added so far) and an output list `unique_addrs` that each
fresh value is appended to. -/
def dedupLoop : List Nat → List Nat → List Nat → List Nat
  | _, acc, [] => acc
  | seen, acc, a :: rest =>
    if a ∈ seen then dedupLoop seen acc rest
    else dedupLoop (a :: seen) (acc ++ [a]) rest

/-- `unique_addrs` as computed by the source from a working sequence. -/
def sourceDedup (l : List Nat) : List Nat := dedupLoop [] [] l

/-- The `AddressList`: extraction followed by the source's de-duplication. -/
def uniqueAddrs (s : List Char) : List Nat := sourceDedup (addrs s)

/-- Following the spec's words (Deduplicator contract): an ordered sequence
retaining only the first occurrence of each distinct value, preserving the
relative order of those first occurrences.  Stated independently of the
source's seen-set loop, for comparison with `sourceDedup`. -/
def firstDedup : List Nat → List Nat
  | [] => []
  | a :: l => a :: (firstDedup l).filter (fun b => b ≠ a)

/-- One digit of Python's uppercase hexadecimal format `X`. -/
def hexDigitChar (n : Nat) : Char :=
  if n < 10 then Char.ofNat (48 + n) else Char.ofNat (55 + n)

/-- The `n` low-order hexadecimal digits of `a`, most significant first. -/
def toHexDigits : Nat → Nat → List Char
  | 0, _ => []
  | n + 1, a => toHexDigits n (a / 16) ++ [hexDigitChar (a % 16)]

/-- Python's `f'{addr:08X}'` for the addresses the program handles: every
extracted address is below `2 ^ 32` (theorem `c7_address_range`), so the
zero-padded width-8 uppercase format is exactly the 8 low-order digits. -/
def toHex8 (a : Nat) : List Char := toHexDigits 8 a

/-- An uppercase hexadecimal digit (`0-9A-F`). -/
def isUpperHexDigit (c : Char) : Bool :=
  (48 ≤ c.toNat && c.toNat ≤ 57) || (65 ≤ c.toNat && c.toNat ≤ 70)

/-- Python's `str.strip()`: remove leading and trailing whitespace. -/
def pyStrip (s : String) : String :=
  String.mk (((s.data.dropWhile isSpaceChar).reverse.dropWhile isSpaceChar).reverse)

/-- The nested function `addr2line`: run the external resolver for one
address.  The resolver behaviour is a parameter: for each address, whether
the process exits with status zero, and its combined captured output.  On
success the trimmed output is returned; on `CalledProcessError` the
bracketed error marker built from the trimmed output. -/
def addr2lineRun (resolver : Nat → Bool × String) (addr : Nat) : String :=
  let r := resolver addr
  if r.1 then pyStrip r.2
  else "<addr2line error: " ++ pyStrip r.2 ++ ">"

/-- The per-address report line `f'0x{addr:08X}:'`. -/
def addrLine (a : Nat) : String := "0x" ++ String.mk (toHex8 a) ++ ":"

/-- The report header `f'Found {n} unique addresses. Resolving with
addr2line...\n'` (its trailing newline yields a blank line after the
header). -/
def headerLine (n : Nat) : String :=
  "Found " ++ Nat.repr n ++ " unique addresses. Resolving with addr2line...\n"

/-- The report loop: for each address print the address line, the resolver
result, and a blank separator line. -/
def reportBlocks (resolver : Nat → Bool × String) : List Nat → List String
  | [] => []
  | a :: rest =>
    addrLine a :: addr2lineRun resolver a :: "" :: reportBlocks resolver rest

/-- Execution environment of one run: the command line (`sys.argv`, program
name included), which path strings name regular files, the decoded log text
(`read_text(errors='ignore')`), and the external resolver behaviour. -/
structure Env where
  argv : List String
  isFile : String → Bool
  logText : List Char
  resolver : Nat → Bool × String

/-- Observable outcome of one run: exit status, the payloads printed to
standard output and to the error stream (one entry per `print` call), and
whether the log file was ever opened and read. -/
structure RunResult where
  exitCode : Nat
  stdout : List String
  stderr : List String
  logRead : Bool

/-- The `main` function of the script. -/
def runMain (env : Env) : RunResult :=
  if env.argv.length ≠ 3 then
    { exitCode := 1, stdout := [],
      stderr := ["Usage: " ++ env.argv.getD 0 "" ++ " <firmware.elf> <log-file>"],
      logRead := false }
  else if env.isFile (env.argv.getD 1 "") = false then
    { exitCode := 1, stdout := [],
      stderr := ["ELF not found: " ++ env.argv.getD 1 ""], logRead := false }
  else if env.isFile (env.argv.getD 2 "") = false then
    { exitCode := 1, stdout := [],
      stderr := ["Log not found: " ++ env.argv.getD 2 ""], logRead := false }
  else
    let ua := uniqueAddrs env.logText
    if ua.isEmpty then
      { exitCode := 0, stdout := [],
        stderr := ["No HF_ADDR lines found in log."], logRead := true }
    else
      { exitCode := 0,
        stdout := headerLine ua.length :: reportBlocks env.resolver ua,
        stderr := [], logRead := true }

/-! ### Inversion lemmas for the matcher -/

theorem dropLit_spec (l : List Char) :
    ∀ s s', dropLit l s = some s' → s = l ++ s' := by
  induction l with
  | nil => intro s s' h; simp [dropLit] at h; simp [h]
  | cons a l ih =>
    intro s s' h
    cases s with
    | nil => simp [dropLit] at h
    | cons c cs =>
      by_cases hca : c = a
      · simp only [dropLit, if_pos hca] at h
        simp [hca, ih cs s' h]
      · simp [dropLit, hca] at h

theorem dropSpaces_spec (s : List Char) :
    ∃ ws, s = ws ++ dropSpaces s ∧ ∀ c ∈ ws, isSpaceChar c = true := by
  induction s with
  | nil => exact ⟨[], rfl, by simp⟩
  | cons c cs ih =>
    by_cases h : isSpaceChar c = true
    · obtain ⟨ws, hw, hall⟩ := ih
      refine ⟨c :: ws, ?_, ?_⟩
      · simp only [dropSpaces, if_pos h]
        simpa using hw
      · intro d hd
        rcases List.mem_cons.mp hd with rfl | hd
        · exact h
        · exact hall d hd
    · exact ⟨[], by simp [dropSpaces, h], by simp⟩

theorem takeSpaces1_spec (s s' : List Char) (h : takeSpaces1 s = some s') :
    ∃ ws, s = ws ++ s' ∧ ws ≠ [] ∧ ∀ c ∈ ws, isSpaceChar c = true := by
  cases s with
  | nil => simp [takeSpaces1] at h
  | cons c cs =>
    by_cases hc : isSpaceChar c = true
    · simp only [takeSpaces1, if_pos hc, Option.some.injEq] at h
      obtain ⟨ws, hw, hall⟩ := dropSpaces_spec cs
      refine ⟨c :: ws, ?_, by simp, ?_⟩
      · simp [← h, ← hw]
      · intro d hd
        rcases List.mem_cons.mp hd with rfl | hd
        · exact hc
        · exact hall d hd
    · simp [takeSpaces1, hc] at h

theorem takeHexN_spec :
    ∀ (n : Nat) (s h r : List Char), takeHexN n s = some (h, r) →
      s = h ++ r ∧ h.length = n ∧ ∀ c ∈ h, isHexDigit c = true := by
  intro n
  induction n with
  | zero =>
    intro s h r hh
    simp only [takeHexN, Option.some.injEq, Prod.mk.injEq] at hh
    simp [← hh.1, ← hh.2]
  | succ n ih =>
    intro s h r hh
    cases s with
    | nil => simp [takeHexN] at hh
    | cons c cs =>
      by_cases hc : isHexDigit c = true
      · simp only [takeHexN, if_pos hc] at hh
        cases e : takeHexN n cs with
        | none => rw [e] at hh; simp at hh
        | some p =>
          obtain ⟨h0, r0⟩ := p
          rw [e] at hh
          simp only [Option.some.injEq, Prod.mk.injEq] at hh
          obtain ⟨hspec1, hspec2, hspec3⟩ := ih cs h0 r0 e
          refine ⟨?_, ?_, ?_⟩
          · simp [← hh.1, ← hh.2, hspec1]
          · simp [← hh.1, hspec2]
          · intro d hd
            rw [← hh.1] at hd
            rcases List.mem_cons.mp hd with rfl | hd
            · exact hc
            · exact hspec3 d hd
      · simp [takeHexN, hc] at hh

/-- The character-class facts about a successful match: non-empty whitespace
separators and exactly-8-digit hexadecimal captures. -/
def GoodFields (w1 a1 w2 a2 : List Char) : Prop :=
  w1 ≠ [] ∧ (∀ c ∈ w1, isSpaceChar c = true) ∧
  a1.length = 8 ∧ (∀ c ∈ a1, isHexDigit c = true) ∧
  w2 ≠ [] ∧ (∀ c ∈ w2, isSpaceChar c = true) ∧
  a2.length = 8 ∧ (∀ c ∈ a2, isHexDigit c = true)

theorem matchAt_spec (s : List Char) (pc lr : Nat) (rest : List Char)
    (h : matchAt s = some (pc, lr, rest)) :
    ∃ w1 a1 w2 a2,
      s = hfLit ++ w1 ++ pcLit ++ a1 ++ w2 ++ lrLit ++ a2 ++ rest ∧
      GoodFields w1 a1 w2 a2 ∧ pc = hexParse a1 ∧ lr = hexParse a2 := by
  simp only [matchAt, Option.bind_eq_some] at h
  obtain ⟨s1, e1, s2, e2, s3, e3, p1, e4, s5, e5, s6, e6, p2, e7, hfin⟩ := h
  obtain ⟨a1, s4⟩ := p1
  obtain ⟨a2, s7⟩ := p2
  simp only [Option.some.injEq, Prod.mk.injEq] at hfin
  obtain ⟨hpc, hlr, hrest⟩ := hfin
  have d1 := dropLit_spec hfLit s s1 e1
  obtain ⟨w1, hw1, hw1ne, hw1all⟩ := takeSpaces1_spec s1 s2 e2
  have d3 := dropLit_spec pcLit s2 s3 e3
  obtain ⟨h4eq, h4len, h4hex⟩ := takeHexN_spec 8 s3 a1 s4 e4
  obtain ⟨w2, hw2, hw2ne, hw2all⟩ := takeSpaces1_spec s4 s5 e5
  have d6 := dropLit_spec lrLit s5 s6 e6
  obtain ⟨h7eq, h7len, h7hex⟩ := takeHexN_spec 8 s6 a2 s7 e7
  refine ⟨w1, a1, w2, a2, ?_, ⟨hw1ne, hw1all, h4len, h4hex, hw2ne, hw2all, h7len, h7hex⟩,
    hpc.symm, hlr.symm⟩
  subst hrest
  rw [d1, hw1, d3, h4eq, hw2, d6, h7eq]
  simp [List.append_assoc]

theorem matchAt_length (s : List Char) (pc lr : Nat) (rest : List Char)
    (h : matchAt s = some (pc, lr, rest)) : rest.length < s.length := by
  obtain ⟨w1, a1, w2, a2, hs, -, -, -⟩ := matchAt_spec s pc lr rest h
  have h7 : hfLit.length = 7 := rfl
  subst hs
  simp only [List.length_append, h7]
  omega

/-! ### The scan loop -/

theorem findIterAux_nil (fuel : Nat) : findIterAux fuel [] = [] := by
  cases fuel <;> rfl

theorem findIterAux_fuel :
    ∀ (f1 f2 : Nat) (s : List Char), s.length ≤ f1 → s.length ≤ f2 →
      findIterAux f1 s = findIterAux f2 s := by
  intro f1
  induction f1 with
  | zero =>
    intro f2 s h1 _
    have : s = [] := List.length_eq_zero.mp (Nat.le_zero.mp h1)
    rw [this, findIterAux_nil, findIterAux_nil]
  | succ f1 ih =>
    intro f2 s h1 h2
    cases s with
    | nil => rw [findIterAux_nil, findIterAux_nil]
    | cons c rest =>
      cases f2 with
      | zero => simp at h2
      | succ f2 =>
        simp only [findIterAux]
        cases e : matchAt (c :: rest) with
        | none =>
          show findIterAux f1 rest = findIterAux f2 rest
          exact ih f2 rest (by simp at h1; omega) (by simp at h2; omega)
        | some r =>
          obtain ⟨pc, lr, s'⟩ := r
          have hlt := matchAt_length _ _ _ _ e
          simp only [List.length_cons] at hlt h1 h2
          show (pc, lr) :: findIterAux f1 s' = (pc, lr) :: findIterAux f2 s'
          rw [ih f2 s' (by omega) (by omega)]

/-- `findIter` satisfies the natural (fuel-free) recursion of the scan:
match at the current position and continue after the match, or skip one
character. -/
theorem findIter_cons (c : Char) (rest : List Char) :
    findIter (c :: rest) =
      match matchAt (c :: rest) with
      | some (pc, lr, s') => (pc, lr) :: findIter s'
      | none => findIter rest := by
  show findIterAux ((c :: rest).length) (c :: rest) = _
  simp only [List.length_cons, findIterAux]
  cases e : matchAt (c :: rest) with
  | none => rfl
  | some r =>
    obtain ⟨pc, lr, s'⟩ := r
    have hlt := matchAt_length _ _ _ _ e
    simp only [List.length_cons] at hlt
    show (pc, lr) :: findIterAux rest.length s' = (pc, lr) :: findIter s'
    rw [findIterAux_fuel rest.length s'.length s' (by omega) le_rfl]
    rfl

theorem findIterAux_mem_spec :
    ∀ (fuel : Nat) (s : List Char) (pc lr : Nat),
      (pc, lr) ∈ findIterAux fuel s →
      ∃ pre w1 a1 w2 a2 rest,
        s = pre ++ hfLit ++ w1 ++ pcLit ++ a1 ++ w2 ++ lrLit ++ a2 ++ rest ∧
        GoodFields w1 a1 w2 a2 ∧ pc = hexParse a1 ∧ lr = hexParse a2 := by
  intro fuel
  induction fuel with
  | zero => intro s pc lr h; simp [findIterAux] at h
  | succ fuel ih =>
    intro s pc lr h
    cases s with
    | nil => simp [findIterAux] at h
    | cons c rest =>
      simp only [findIterAux] at h
      cases e : matchAt (c :: rest) with
      | none =>
        rw [e] at h
        obtain ⟨pre, w1, a1, w2, a2, r0, hs, hg, hpc, hlr⟩ := ih rest pc lr h
        exact ⟨c :: pre, w1, a1, w2, a2, r0, by simp [hs], hg, hpc, hlr⟩
      | some r =>
        obtain ⟨pc', lr', s'⟩ := r
        rw [e] at h
        simp only [List.mem_cons, Prod.mk.injEq] at h
        rcases h with ⟨rfl, rfl⟩ | h
        · obtain ⟨w1, a1, w2, a2, hs, hg, hpc, hlr⟩ := matchAt_spec _ _ _ _ e
          exact ⟨[], w1, a1, w2, a2, s', by simpa using hs, hg, hpc, hlr⟩
        · obtain ⟨pre, w1, a1, w2, a2, r0, hs', hg, hpc, hlr⟩ := ih s' pc lr h
          obtain ⟨v1, b1, v2, b2, hsm, -, -, -⟩ := matchAt_spec _ _ _ _ e
          refine ⟨hfLit ++ v1 ++ pcLit ++ b1 ++ v2 ++ lrLit ++ b2 ++ pre,
            w1, a1, w2, a2, r0, ?_, hg, hpc, hlr⟩
          rw [hsm, hs']
          simp [List.append_assoc]

theorem findIter_mem_spec (s : List Char) (pc lr : Nat)
    (h : (pc, lr) ∈ findIter s) :
    ∃ pre w1 a1 w2 a2 rest,
      s = pre ++ hfLit ++ w1 ++ pcLit ++ a1 ++ w2 ++ lrLit ++ a2 ++ rest ∧
      GoodFields w1 a1 w2 a2 ∧ pc = hexParse a1 ∧ lr = hexParse a2 :=
  findIterAux_mem_spec s.length s pc lr h

/-! ### Character-class and hexadecimal arithmetic facts -/

theorem space_not_hex (c : Char) (h : isSpaceChar c = true) :
    isHexDigit c = false := by
  have hh : ¬ isHexDigit c = true → isHexDigit c = false := by
    cases isHexDigit c <;> simp
  apply hh
  intro hx
  simp only [isSpaceChar, Bool.or_eq_true, Bool.and_eq_true, decide_eq_true_eq] at h
  simp only [isHexDigit, Bool.or_eq_true, Bool.and_eq_true, decide_eq_true_eq] at hx
  omega

theorem hexVal_lt (c : Char) (h : isHexDigit c = true) : hexVal c < 16 := by
  simp only [isHexDigit, Bool.or_eq_true, Bool.and_eq_true, decide_eq_true_eq] at h
  unfold hexVal
  split_ifs <;> omega

theorem hexParse_foldl_lt (l : List Char) :
    ∀ acc, (∀ c ∈ l, isHexDigit c = true) →
      List.foldl (fun a c => a * 16 + hexVal c) acc l < (acc + 1) * 16 ^ l.length := by
  induction l with
  | nil => intro acc _; simp
  | cons c cs ih =>
    intro acc hall
    have hc : hexVal c < 16 := hexVal_lt c (hall c (by simp))
    have hstep := ih (acc * 16 + hexVal c) (fun d hd => hall d (by simp [hd]))
    calc List.foldl (fun a c => a * 16 + hexVal c) acc (c :: cs)
        = List.foldl (fun a c => a * 16 + hexVal c) (acc * 16 + hexVal c) cs := rfl
      _ < (acc * 16 + hexVal c + 1) * 16 ^ cs.length := hstep
      _ ≤ ((acc + 1) * 16) * 16 ^ cs.length :=
          Nat.mul_le_mul_right _ (by omega)
      _ = (acc + 1) * 16 ^ (c :: cs).length := by
          rw [List.length_cons, pow_succ]; ring

theorem hexParse_lt (l : List Char) (h : ∀ c ∈ l, isHexDigit c = true) :
    hexParse l < 16 ^ l.length := by
  simpa using hexParse_foldl_lt l 0 h

theorem hexVal_hexDigitChar : ∀ d < 16, hexVal (hexDigitChar d) = d := by decide

theorem isUpperHexDigit_hexDigitChar :
    ∀ d < 16, isUpperHexDigit (hexDigitChar d) = true := by decide

theorem toHexDigits_length : ∀ (n a : Nat), (toHexDigits n a).length = n := by
  intro n
  induction n with
  | zero => intro a; rfl
  | succ n ih => intro a; simp [toHexDigits, ih]

theorem hexParse_append_digit (l : List Char) (c : Char) :
    hexParse (l ++ [c]) = hexParse l * 16 + hexVal c := by
  simp [hexParse, List.foldl_append]

theorem hexParse_toHexDigits :
    ∀ (n a : Nat), a < 16 ^ n → hexParse (toHexDigits n a) = a := by
  intro n
  induction n with
  | zero =>
    intro a ha
    simp only [pow_zero, Nat.lt_one_iff] at ha
    simp [toHexDigits, hexParse, ha]
  | succ n ih =>
    intro a ha
    have hdiv : a / 16 < 16 ^ n := by
      rw [Nat.div_lt_iff_lt_mul (by norm_num)]
      calc a < 16 ^ (n + 1) := ha
        _ = 16 ^ n * 16 := pow_succ 16 n
    simp only [toHexDigits, hexParse_append_digit]
    rw [ih (a / 16) hdiv, hexVal_hexDigitChar (a % 16) (Nat.mod_lt a (by norm_num))]
    omega

theorem toHexDigits_upper :
    ∀ (n a : Nat) (c : Char), c ∈ toHexDigits n a → isUpperHexDigit c = true := by
  intro n
  induction n with
  | zero => intro a c hc; simp [toHexDigits] at hc
  | succ n ih =>
    intro a c hc
    simp only [toHexDigits, List.mem_append, List.mem_singleton] at hc
    rcases hc with hc | rfl
    · exact ih (a / 16) c hc
    · exact isUpperHexDigit_hexDigitChar (a % 16) (Nat.mod_lt a (by norm_num))

/-! ### De-duplication: the source's seen-set loop agrees with the spec's
first-occurrence contract -/

theorem filter_filter_list (p q : Nat → Bool) :
    ∀ l : List Nat, (l.filter q).filter p = l.filter (fun b => q b && p b) := by
  intro l
  induction l with
  | nil => rfl
  | cons a l ih =>
    by_cases hq : q a = true
    · by_cases hp : p a = true <;> simp [List.filter_cons, hq, hp, ih]
    · simp only [Bool.not_eq_true] at hq
      simp [List.filter_cons, hq, ih]

theorem dedupLoop_eq :
    ∀ (l seen acc : List Nat),
      dedupLoop seen acc l = acc ++ (firstDedup l).filter (fun b => decide (b ∉ seen)) := by
  intro l
  induction l with
  | nil => intro seen acc; simp [dedupLoop, firstDedup]
  | cons a t ih =>
    intro seen acc
    by_cases h : a ∈ seen
    · rw [dedupLoop, if_pos h, ih seen acc]
      simp only [firstDedup, List.filter_cons]
      have hPa : decide (a ∉ seen) = false := by simp [h]
      rw [hPa]
      simp only [Bool.false_eq_true, if_false]
      congr 1
      rw [filter_filter_list]
      have hfun : (fun b => decide (b ≠ a) && decide (b ∉ seen)) =
          (fun b : Nat => decide (b ∉ seen)) := by
        funext b
        by_cases hb : b ∈ seen
        · simp [hb]
        · have hba : b ≠ a := fun he => hb (he ▸ h)
          simp [hb, hba]
      rw [hfun]
    · rw [dedupLoop, if_neg h, ih (a :: seen) (acc ++ [a])]
      simp only [firstDedup, List.filter_cons]
      have hPa : decide (a ∉ seen) = true := by simp [h]
      rw [hPa]
      simp only [if_true, List.append_assoc, List.singleton_append]
      congr 2
      rw [filter_filter_list]
      have hfun : (fun b : Nat => decide (b ∉ a :: seen)) =
          (fun b => decide (b ≠ a) && decide (b ∉ seen)) := by
        funext b
        by_cases hba : b = a
        · simp [hba]
        · by_cases hb : b ∈ seen <;> simp [hba, hb]
      rw [hfun]

/-- The source's de-duplication loop computes exactly the spec's
first-occurrence de-duplication. -/
theorem sourceDedup_eq_firstDedup (l : List Nat) : sourceDedup l = firstDedup l := by
  rw [sourceDedup, dedupLoop_eq]
  have hfun : (fun b : Nat => decide (b ∉ ([] : List Nat))) = fun _ : Nat => true := by
    funext b; simp
  rw [hfun]
  simp [List.filter_true]

theorem mem_firstDedup : ∀ (l : List Nat) (b : Nat), b ∈ firstDedup l ↔ b ∈ l := by
  intro l
  induction l with
  | nil => intro b; simp [firstDedup]
  | cons a t ih =>
    intro b
    simp only [firstDedup, List.mem_cons, List.mem_filter, ih, decide_eq_true_eq]
    by_cases hba : b = a <;> simp [hba]

theorem firstDedup_nodup : ∀ l : List Nat, (firstDedup l).Nodup := by
  intro l
  induction l with
  | nil => simp [firstDedup]
  | cons a t ih =>
    simp only [firstDedup]
    refine List.Nodup.cons ?_ (List.Nodup.filter _ ih)
    intro hmem
    have := (List.mem_filter.mp hmem).2
    simp at this

theorem firstDedup_sublist : ∀ l : List Nat, List.Sublist (firstDedup l) l := by
  intro l
  induction l with
  | nil => simp [firstDedup]
  | cons a t ih =>
    simp only [firstDedup]
    exact List.Sublist.cons₂ a (List.Sublist.trans (List.filter_sublist _) ih)

theorem firstDedup_of_nodup : ∀ l : List Nat, l.Nodup → firstDedup l = l := by
  intro l
  induction l with
  | nil => intro _; rfl
  | cons a t ih =>
    intro hnd
    have hna : a ∉ t := (List.nodup_cons.mp hnd).1
    have hndt : t.Nodup := (List.nodup_cons.mp hnd).2
    simp only [firstDedup, ih hndt]
    congr 1
    apply List.filter_eq_self.mpr
    intro b hb
    simp only [decide_eq_true_eq]
    exact fun he => hna (he ▸ hb)

theorem firstDedup_idem (l : List Nat) : firstDedup (firstDedup l) = firstDedup l :=
  firstDedup_of_nodup _ (firstDedup_nodup l)

/-! ### Bounds on extracted addresses -/

theorem findIter_bound (s : List Char) (pc lr : Nat)
    (h : (pc, lr) ∈ findIter s) : pc < 2 ^ 32 ∧ lr < 2 ^ 32 := by
  obtain ⟨pre, w1, a1, w2, a2, rest, -, hg, hpc, hlr⟩ := findIter_mem_spec s pc lr h
  obtain ⟨-, -, hl1, hx1, -, -, hl2, hx2⟩ := hg
  have h16 : (16 : Nat) ^ 8 = 2 ^ 32 := by norm_num
  constructor
  · rw [hpc]
    have := hexParse_lt a1 hx1
    rwa [hl1, h16] at this
  · rw [hlr]
    have := hexParse_lt a2 hx2
    rwa [hl2, h16] at this

theorem mem_pairList :
    ∀ (ps : List (Nat × Nat)) (a : Nat), a ∈ pairList ps →
      ∃ pc lr, (pc, lr) ∈ ps ∧ (a = pc ∨ a = lr) := by
  intro ps
  induction ps with
  | nil => intro a h; simp [pairList] at h
  | cons p t ih =>
    intro a h
    obtain ⟨pc0, lr0⟩ := p
    simp only [pairList, List.mem_cons] at h
    rcases h with rfl | rfl | h
    · exact ⟨a, lr0, by simp, Or.inl rfl⟩
    · exact ⟨pc0, a, by simp, Or.inr rfl⟩
    · obtain ⟨pc, lr, hm, hor⟩ := ih a h
      exact ⟨pc, lr, by simp [hm], hor⟩

theorem mem_addrs_bound (s : List Char) (a : Nat) (h : a ∈ addrs s) :
    a < 2 ^ 32 := by
  obtain ⟨pc, lr, hm, hor⟩ := mem_pairList (findIter s) a h
  have := findIter_bound s pc lr hm
  rcases hor with rfl | rfl
  · exact this.1
  · exact this.2

theorem mem_uniqueAddrs_iff (s : List Char) (a : Nat) :
    a ∈ uniqueAddrs s ↔ a ∈ addrs s := by
  rw [uniqueAddrs, sourceDedup_eq_firstDedup]
  exact mem_firstDedup (addrs s) a

/-! ### Report structure -/

theorem reportBlocks_append (r : Nat → Bool × String) :
    ∀ l1 l2 : List Nat,
      reportBlocks r (l1 ++ l2) = reportBlocks r l1 ++ reportBlocks r l2 := by
  intro l1 l2
  induction l1 with
  | nil => rfl
  | cons a t ih => simp [reportBlocks, ih]

/-- Exit-status characterization of `runMain`, independent of the resolver,
the log contents and the outputs. -/
theorem runMain_exitCode (env : Env) :
    (runMain env).exitCode =
      if env.argv.length = 3 ∧ env.isFile (env.argv.getD 1 "") = true ∧
          env.isFile (env.argv.getD 2 "") = true then 0 else 1 := by
  by_cases h1 : env.argv.length = 3
  · obtain ⟨x, y, z, hargv⟩ := List.length_eq_three.mp h1
    by_cases h2 : env.isFile y = true
    · by_cases h3 : env.isFile z = true
      · by_cases h4 : (uniqueAddrs env.logText).isEmpty = true <;>
          simp [runMain, hargv, h2, h3, h4]
      · have h3' : env.isFile z = false := by simpa using h3
        simp [runMain, hargv, h2, h3']
    · have h2' : env.isFile y = false := by simpa using h2
      simp [runMain, hargv, h2']
  · simp [runMain, h1]

/-- Report branch of `runMain`: with a well-formed command line, both files
present and a non-empty `AddressList`, the run prints the header and the
per-address blocks to standard output and exits with status 0. -/
theorem runMain_report (env : Env) (prog elf log : String)
    (hargv : env.argv = [prog, elf, log])
    (helf : env.isFile elf = true) (hlog : env.isFile log = true)
    (hne : uniqueAddrs env.logText ≠ []) :
    runMain env =
      { exitCode := 0,
        stdout := headerLine (uniqueAddrs env.logText).length ::
          reportBlocks env.resolver (uniqueAddrs env.logText),
        stderr := [], logRead := true } := by
  have hemp : (uniqueAddrs env.logText).isEmpty = false := by
    cases h : uniqueAddrs env.logText with
    | nil => exact absurd h hne
    | cons a t => simp
  simp [runMain, hargv, helf, hlog, hemp]

/-! ### The claims -/

/-- Claim C1: for every log text, the `AddressList` produced by the program
(`uniqueAddrs`, the source's seen-set loop applied to the PC-then-LR working
sequence of the scan) equals the first-occurrence de-duplication of that
working sequence; the result has no duplicate values and preserves first-seen
order (it is a sublist of the working sequence containing exactly its
values); and two textually different hex spellings of the same integer count
as one address (`PC=0xDEADBEEF` and `LR=0xdeadbeef` yield the single address
`0xDEADBEEF = 3735928559`). -/
theorem c1_addressList (s : List Char) :
    uniqueAddrs s = firstDedup (addrs s) ∧
    (uniqueAddrs s).Nodup ∧
    List.Sublist (uniqueAddrs s) (addrs s) ∧
    (∀ a, a ∈ uniqueAddrs s ↔ a ∈ addrs s) ∧
    uniqueAddrs ("HF_ADDR PC=0xDEADBEEF LR=0xdeadbeef".toList) = [3735928559] := by
  have hbase : uniqueAddrs s = firstDedup (addrs s) := sourceDedup_eq_firstDedup (addrs s)
  refine ⟨hbase, ?_, ?_, fun a => mem_uniqueAddrs_iff s a, by decide⟩
  · rw [hbase]; exact firstDedup_nodup (addrs s)
  · rw [hbase]; exact firstDedup_sublist (addrs s)

/-- Claim C2: the exit status is 0 exactly when the argument count is 3 and
both the ELF path and the log path name regular files, and 1 otherwise; the
resolver behaviour (hence any per-address resolver failure) never changes
the exit status. -/
theorem c2_exit_code (env : Env) :
    ((runMain env).exitCode =
      if env.argv.length = 3 ∧ env.isFile (env.argv.getD 1 "") = true ∧
          env.isFile (env.argv.getD 2 "") = true then 0 else 1) ∧
    ∀ r, (runMain { env with resolver := r }).exitCode = (runMain env).exitCode := by
  refine ⟨runMain_exitCode env, fun r => ?_⟩
  rw [runMain_exitCode, runMain_exitCode]

/-- Claim C3 as stated is false: the regular expression has nothing after
the LR capture group, so an occurrence whose LR field consists of nine
consecutive hexadecimal digits is still matched (capturing the first
eight).  Concretely, in `HF_ADDR PC=0x00000000 LR=0x123456789` the text
after `LR=0x` is nine hex digits, yet the extractor produces the match
`(0x00000000, 0x12345678)`. -/
theorem c3_counterexample :
    "HF_ADDR PC=0x00000000 LR=0x123456789".toList =
      "HF_ADDR PC=0x00000000 LR=0x".toList ++ "123456789".toList ∧
    ("123456789".toList.length = 9 ∧
      ∀ c ∈ "123456789".toList, isHexDigit c = true) ∧
    findIter ("HF_ADDR PC=0x00000000 LR=0x123456789".toList) = [(0, 305419896)] := by
  decide

/-- Claim C3 (amended): every match produced by the extractor occurs at a
position where the literal `HF_ADDR` is followed by non-empty whitespace,
`PC=0x`, exactly 8 hexadecimal digits (the following character is
whitespace, hence not a hex digit, so a PC field of more than 8 consecutive
hex digits cannot match), non-empty whitespace, `LR=0x`, and at least 8
hexadecimal digits of which the first 8 are captured; nothing constrains
the text after the 8 captured LR digits. -/
theorem c3_match_shape (s : List Char) (pc lr : Nat)
    (h : (pc, lr) ∈ findIter s) :
    ∃ pre w1 a1 w2 a2 rest,
      s = pre ++ hfLit ++ w1 ++ pcLit ++ a1 ++ w2 ++ lrLit ++ a2 ++ rest ∧
      w1 ≠ [] ∧ (∀ c ∈ w1, isSpaceChar c = true) ∧
      a1.length = 8 ∧ (∀ c ∈ a1, isHexDigit c = true) ∧
      w2 ≠ [] ∧ (∀ c ∈ w2, isSpaceChar c = true) ∧
      (∀ c ∈ w2, isHexDigit c = false) ∧
      a2.length = 8 ∧ (∀ c ∈ a2, isHexDigit c = true) ∧
      pc = hexParse a1 ∧ lr = hexParse a2 := by
  obtain ⟨pre, w1, a1, w2, a2, rest, hs, hg, hpc, hlr⟩ := findIter_mem_spec s pc lr h
  obtain ⟨hw1ne, hw1sp, hl1, hx1, hw2ne, hw2sp, hl2, hx2⟩ := hg
  exact ⟨pre, w1, a1, w2, a2, rest, hs, hw1ne, hw1sp, hl1, hx1, hw2ne, hw2sp,
    fun c hc => space_not_hex c (hw2sp c hc), hl2, hx2, hpc, hlr⟩

/-- Claim C3 (amended), instantiated at the match of the log line
`HF_ADDR PC=0x08001234 LR=0x08000F00`. -/
theorem c3_match_shape_witness :
    ∃ pre w1 a1 w2 a2 rest,
      "HF_ADDR PC=0x08001234 LR=0x08000F00".toList =
        pre ++ hfLit ++ w1 ++ pcLit ++ a1 ++ w2 ++ lrLit ++ a2 ++ rest ∧
      w1 ≠ [] ∧ (∀ c ∈ w1, isSpaceChar c = true) ∧
      a1.length = 8 ∧ (∀ c ∈ a1, isHexDigit c = true) ∧
      w2 ≠ [] ∧ (∀ c ∈ w2, isSpaceChar c = true) ∧
      (∀ c ∈ w2, isHexDigit c = false) ∧
      a2.length = 8 ∧ (∀ c ∈ a2, isHexDigit c = true) ∧
      134222388 = hexParse a1 ∧ 134221568 = hexParse a2 :=
  c3_match_shape ("HF_ADDR PC=0x08001234 LR=0x08000F00".toList)
    134222388 134221568 (by decide)

/-- Environment exhibiting the C4 counterexample: a log with two pattern
matches that all parse to the same single address. -/
def envC4 : Env :=
  { argv := ["hf_addr2line.py", "fw.elf", "boot.log"],
    isFile := fun _ => true,
    logText :=
      ("HF_ADDR PC=0x00000001 LR=0x00000001\nHF_ADDR PC=0x00000001 LR=0x00000001").toList,
    resolver := fun _ => (true, "main\nmain.c:1") }

/-- Claim C4 as stated is false: the header line carries the number of
unique addresses, not the number of pattern matches.  On `envC4` the log has
2 matches but the header reads `Found 1 unique addresses. ...`. -/
theorem c4_counterexample :
    (findIter envC4.logText).length = 2 ∧
    (runMain envC4).stdout.head? = some (headerLine 1) ∧
    ¬ (runMain envC4).stdout.head? =
        some (headerLine (findIter envC4.logText).length) := by
  decide

/-- Claim C4 (amended): when the `AddressList` is non-empty, standard output
is a header line carrying the unique-address count (the length of the
`AddressList`), followed, for each address in `AddressList` order, by a line
made of `0x`, 8 uppercase hexadecimal digits and `:`, then that address's
resolution result text, then a blank separator line. -/
theorem c4_report_format (env : Env) (prog elf log : String)
    (hargv : env.argv = [prog, elf, log])
    (helf : env.isFile elf = true) (hlog : env.isFile log = true)
    (hne : uniqueAddrs env.logText ≠ []) :
    (runMain env).stdout =
      headerLine (uniqueAddrs env.logText).length ::
        reportBlocks env.resolver (uniqueAddrs env.logText) ∧
    ∀ a : Nat, addrLine a = "0x" ++ String.mk (toHex8 a) ++ ":" ∧
      (toHex8 a).length = 8 ∧ ∀ c ∈ toHex8 a, isUpperHexDigit c = true := by
  refine ⟨?_, fun a => ⟨rfl, toHexDigits_length 8 a, fun c hc => toHexDigits_upper 8 a c hc⟩⟩
  rw [runMain_report env prog elf log hargv helf hlog hne]

/-- Environment for the C4 and C5 witnesses: a log with two distinct
addresses, a resolver that fails for address 1 and succeeds for address 2. -/
def envC5 : Env :=
  { argv := ["hf_addr2line.py", "fw.elf", "boot.log"],
    isFile := fun _ => true,
    logText := "HF_ADDR PC=0x00000001 LR=0x00000002".toList,
    resolver := fun a => if a = 1 then (false, "bad elf\n") else (true, "handler\nmain.c:7") }

/-- Claim C4 (amended), instantiated on `envC5`. -/
theorem c4_report_format_witness :
    (runMain envC5).stdout =
      headerLine (uniqueAddrs envC5.logText).length ::
        reportBlocks envC5.resolver (uniqueAddrs envC5.logText) ∧
    ∀ a : Nat, addrLine a = "0x" ++ String.mk (toHex8 a) ++ ":" ∧
      (toHex8 a).length = 8 ∧ ∀ c ∈ toHex8 a, isUpperHexDigit c = true :=
  c4_report_format envC5 "hf_addr2line.py" "fw.elf" "boot.log" rfl rfl rfl (by decide)

/-- Claim C5: a non-zero resolver exit for an address produces the bracketed
error marker built from the trimmed captured output; the run still exits
with status 0, and every address of the `AddressList` — in particular every
address after a failing one — still gets its own block (address line, its
own resolution result, blank line) in the report. -/
theorem c5_resolver_isolation (env : Env) (prog elf log : String) (a : Nat)
    (hargv : env.argv = [prog, elf, log])
    (helf : env.isFile elf = true) (hlog : env.isFile log = true)
    (ha : a ∈ uniqueAddrs env.logText) :
    (runMain env).exitCode = 0 ∧
    (∀ out, env.resolver a = (false, out) →
      addr2lineRun env.resolver a = "<addr2line error: " ++ pyStrip out ++ ">") ∧
    ∃ pre post, (runMain env).stdout =
      pre ++ addrLine a :: addr2lineRun env.resolver a :: "" :: post := by
  have hne : uniqueAddrs env.logText ≠ [] := by
    intro he; rw [he] at ha; simp at ha
  have hrep := runMain_report env prog elf log hargv helf hlog hne
  refine ⟨by rw [hrep], ?_, ?_⟩
  · intro out hres
    simp [addr2lineRun, hres]
  · obtain ⟨l1, l2, hsplit⟩ := List.append_of_mem ha
    refine ⟨headerLine (uniqueAddrs env.logText).length :: reportBlocks env.resolver l1,
      reportBlocks env.resolver l2, ?_⟩
    rw [hrep]
    simp only [hsplit, reportBlocks_append]
    simp [reportBlocks]

/-- Claim C5, instantiated on `envC5` at address 2, which appears after
address 1 whose resolution fails (`addr2lineRun` on 1 yields the bracketed
marker `<addr2line error: bad elf>`, shown by `rfl`-evaluation in the
second conjunct below). -/
theorem c5_resolver_isolation_witness :
    ((runMain envC5).exitCode = 0 ∧
      (∀ out, envC5.resolver 2 = (false, out) →
        addr2lineRun envC5.resolver 2 = "<addr2line error: " ++ pyStrip out ++ ">") ∧
      ∃ pre post, (runMain envC5).stdout =
        pre ++ addrLine 2 :: addr2lineRun envC5.resolver 2 :: "" :: post) ∧
    addr2lineRun envC5.resolver 1 = "<addr2line error: bad elf>" ∧
    addr2lineRun envC5.resolver 2 = "handler\nmain.c:7" :=
  ⟨c5_resolver_isolation envC5 "hf_addr2line.py" "fw.elf" "boot.log" 2
      rfl rfl rfl (by decide),
    by decide, by decide⟩

/-- Claim C6: with a well-formed command line and both files present, an
`AddressList` that comes out empty makes the program print the
`No HF_ADDR lines found in log.` notice to the error stream, print nothing
to standard output, and exit with status 0. -/
theorem c6_zero_matches (env : Env) (prog elf log : String)
    (hargv : env.argv = [prog, elf, log])
    (helf : env.isFile elf = true) (hlog : env.isFile log = true)
    (hempty : uniqueAddrs env.logText = []) :
    (runMain env).exitCode = 0 ∧ (runMain env).stdout = [] ∧
    (runMain env).stderr = ["No HF_ADDR lines found in log."] := by
  simp [runMain, hargv, helf, hlog, hempty]

/-- Environment for the C6 witness: both files exist, the log has no
occurrence of the pattern. -/
def envC6 : Env :=
  { argv := ["hf_addr2line.py", "fw.elf", "boot.log"],
    isFile := fun _ => true,
    logText := "boot ok\nno hard fault today".toList,
    resolver := fun _ => (true, "main\nmain.c:1") }

/-- Claim C6, instantiated on `envC6`. -/
theorem c6_zero_matches_witness :
    (runMain envC6).exitCode = 0 ∧ (runMain envC6).stdout = [] ∧
    (runMain envC6).stderr = ["No HF_ADDR lines found in log."] :=
  c6_zero_matches envC6 "hf_addr2line.py" "fw.elf" "boot.log" rfl rfl rfl (by decide)

/-- Claim C7: every element of the `AddressList` is a 32-bit unsigned
integer, and formatting it as 8 uppercase hexadecimal digits and re-parsing
the digits as base-16 yields the value back. -/
theorem c7_address_range (s : List Char) (a : Nat) (ha : a ∈ uniqueAddrs s) :
    a < 2 ^ 32 ∧ (toHex8 a).length = 8 ∧ hexParse (toHex8 a) = a := by
  have hmem : a ∈ addrs s := (mem_uniqueAddrs_iff s a).mp ha
  have hbound : a < 2 ^ 32 := mem_addrs_bound s a hmem
  have h16 : (16 : Nat) ^ 8 = 2 ^ 32 := by norm_num
  exact ⟨hbound, toHexDigits_length 8 a,
    hexParse_toHexDigits 8 a (by rw [h16]; exact hbound)⟩

/-- Claim C7, instantiated at the PC address of the log line
`HF_ADDR PC=0x08001234 LR=0x08000F00`. -/
theorem c7_address_range_witness :
    134222388 < 2 ^ 32 ∧ (toHex8 134222388).length = 8 ∧
      hexParse (toHex8 134222388) = 134222388 :=
  c7_address_range ("HF_ADDR PC=0x08001234 LR=0x08000F00".toList) 134222388 (by decide)

/-- Claim C8: extraction followed by de-duplication is idempotent — the
pipeline is deterministic and de-duplicating an already de-duplicated
sequence leaves it unchanged, both for the source's loop (`sourceDedup`)
applied to any `AddressList` and in general, and for the spec's
first-occurrence de-duplication. -/
theorem c8_idempotent :
    (∀ s : List Char, sourceDedup (uniqueAddrs s) = uniqueAddrs s) ∧
    (∀ l : List Nat, sourceDedup (sourceDedup l) = sourceDedup l) ∧
    (∀ l : List Nat, firstDedup (firstDedup l) = firstDedup l) := by
  have key : ∀ l : List Nat, sourceDedup (sourceDedup l) = sourceDedup l := by
    intro l
    rw [sourceDedup_eq_firstDedup l, sourceDedup_eq_firstDedup (firstDedup l)]
    exact firstDedup_idem l
  exact ⟨fun s => key (addrs s), key, firstDedup_idem⟩

/-- Claim C9: the `\s+` separators of the pattern accept newlines: a log in
which `HF_ADDR`, the PC field and the LR field are separated by line breaks
still yields the match, so a match is not confined to a single log line. -/
theorem c9_newline_separators :
    findIter ("HF_ADDR\nPC=0x08001234\nLR=0x08000F00".toList) =
      [(134222388, 134221568)] ∧
    '\n' ∈ "HF_ADDR\nPC=0x08001234\nLR=0x08000F00".toList ∧
    isSpaceChar '\n' = true := by
  decide

/-- Claim C10: the ELF path is validated before the log path — when both
paths fail the regular-file check, only the ELF diagnostic is printed to the
error stream, the exit status is 1, and the log file is never opened or
read. -/
theorem c10_elf_checked_first (env : Env) (prog elf log : String)
    (hargv : env.argv = [prog, elf, log])
    (helf : env.isFile elf = false) (hlog : env.isFile log = false) :
    (runMain env).stderr = ["ELF not found: " ++ elf] ∧
    (runMain env).exitCode = 1 ∧ (runMain env).logRead = false := by
  simp [runMain, hargv, helf]

/-- Environment for the C10 witness: neither path is a regular file. -/
def envC10 : Env :=
  { argv := ["hf_addr2line.py", "missing.elf", "missing.log"],
    isFile := fun _ => false,
    logText := [],
    resolver := fun _ => (true, "") }

/-- Claim C10, instantiated on `envC10`. -/
theorem c10_elf_checked_first_witness :
    (runMain envC10).stderr = ["ELF not found: " ++ "missing.elf"] ∧
    (runMain envC10).exitCode = 1 ∧ (runMain envC10).logRead = false :=
  c10_elf_checked_first envC10 "hf_addr2line.py" "missing.elf" "missing.log" rfl rfl rfl

end HfAddr2Line
